import Mathlib

/-!
Verification of the in-silico perturbation workflow
(`notebooks/step1_insilico_perturbation.ipynb`).

The notebook defines two Python functions:

* `perturb_genes_counts(adata, gene_names, target_genes, knock_type,
  fold_change, noise_level)` — the perturbation engine.  It copies the
  AnnData object, checks that the count matrix has an integer dtype
  (raising `ValueError("Count matrix must contain integer values.")`
  otherwise), and then, for each requested target gene: skips it with a
  printed diagnostic when the name is not in the gene-name column,
  otherwise resolves the name to a column index, scales the column by
  `1 - fold_change` (knock-down) or `1 + fold_change` (knock-up) with an
  integer cast (truncation toward zero), raising
  `ValueError("knock_type must be 'knock-up' or 'knock-down'")` for any
  other `knock_type`, adds a per-entry Poisson noise draw with intensity
  `noise_level * max(scaled, 1)`, clips at zero and writes the column
  back into the working copy.

* `simulate_count_data(n_gene, n_samples, max_count)` — a test fixture
  producing a random integer matrix with placeholder names.

Embedding choices:

* The count matrix is the list of per-gene vectors (the slices
  `X[:, gene_idx]` the code reads and writes); entries are `ℤ`.
* Python floats are modelled as `ℚ`; `.astype(int)` is truncation
  toward zero (`truncToZero`).
* The numpy dtype of `X` is a Boolean field `intDtype` on the AnnData
  model (`np.issubdtype(X.dtype, np.integer)`).
* `np.random.poisson(lam)` is an oracle `noise : ℕ → ℕ → ℚ → ℕ` giving
  the draw for (loop iteration, sample position, lam); a Poisson draw
  is a natural number, and theorems that need it assume the one law the
  code relies on: a draw with intensity `0` is `0`.
* The two `raise ValueError` sites become the two constructors of
  `PerturbError`; the printed per-gene diagnostics are returned as a
  list of strings alongside the perturbed object.
* Object identity / aliasing (`adata.copy()` versus in-place writes) is
  modelled once more in `perturbHeapCall`, where AnnData objects live in
  an explicit store and the function works on a freshly allocated copy.
-/

/-- Truncation toward zero, the semantics of numpy `.astype(int)`. -/
def truncToZero (q : ℚ) : ℤ :=
  if 0 ≤ q then ⌊q⌋ else ⌈q⌉

/-- Model of the AnnData object as used by the notebook: `X` is the list
of per-gene count vectors (`X[:, j]` for each gene position `j`),
`geneNames` the `var` gene-name column, `intDtype` whether the dtype of
`X` is a numpy integer dtype. -/
structure AData where
  X : List (List ℤ)
  geneNames : List String
  intDtype : Bool
deriving DecidableEq, Repr

/-- The two `raise ValueError` sites of `perturb_genes_counts`. -/
inductive PerturbError where
  /-- `ValueError("Count matrix must contain integer values.")` -/
  | invalidInput : PerturbError
  /-- `ValueError("knock_type must be 'knock-up' or 'knock-down'")` -/
  | invalidParameter : PerturbError
deriving DecidableEq, Repr

/-- The printed diagnostic `f"Gene {gene} not found in the dataset!"`. -/
def notFoundMsg (gene : String) : String :=
  "Gene " ++ gene ++ " not found in the dataset!"

/-- `(original_counts * factor).astype(int)` for a gene's count vector,
where `factor` is `1 - fold_change` or `1 + fold_change`. -/
def scaledCol (factor : ℚ) (col : List ℤ) : List ℤ :=
  col.map fun x : ℤ => truncToZero ((x : ℚ) * factor)

/-- Elementwise `np.clip(scaled + poisson(noise_level * np.maximum(scaled, 1)), 0, None)`
over the scaled vector, with `s` the position of the first entry within
the full sample axis and `i` the loop iteration the draws belong to. -/
def noisyColAux (i : ℕ) (noise_level : ℚ) (noise : ℕ → ℕ → ℚ → ℕ) :
    ℕ → List ℤ → List ℤ
  | _, [] => []
  | s, v :: vs =>
      max 0 (v + (noise i s (noise_level * ((max v 1 : ℤ) : ℚ)) : ℤ)) ::
        noisyColAux i noise_level noise (s + 1) vs

/-- Noise-and-clip step applied to a whole scaled gene vector. -/
def noisyCol (i : ℕ) (noise_level : ℚ) (noise : ℕ → ℕ → ℚ → ℕ)
    (scaled : List ℤ) : List ℤ :=
  noisyColAux i noise_level noise 0 scaled

/-- The `for gene in target_genes` loop of `perturb_genes_counts`,
acting on the working copy's matrix `X` and accumulating the printed
diagnostics; `i` numbers the loop iterations so that each iteration
draws its own noise. -/
def perturbLoop (geneNames : List String) (knock_type : String)
    (fold_change noise_level : ℚ) (noise : ℕ → ℕ → ℚ → ℕ) :
    ℕ → List String → List (List ℤ) → List String →
    Except PerturbError (List (List ℤ) × List String)
  | _, [], X, diags => .ok (X, diags)
  | i, gene :: rest, X, diags =>
    if gene ∉ geneNames then
      perturbLoop geneNames knock_type fold_change noise_level noise
        (i + 1) rest X (diags ++ [notFoundMsg gene])
    else
      let gene_idx := geneNames.indexOf gene
      let original_counts := X.getD gene_idx []
      if knock_type = "knock-down" then
        perturbLoop geneNames knock_type fold_change noise_level noise
          (i + 1) rest
          (X.set gene_idx
            (noisyCol i noise_level noise
              (scaledCol (1 - fold_change) original_counts))) diags
      else if knock_type = "knock-up" then
        perturbLoop geneNames knock_type fold_change noise_level noise
          (i + 1) rest
          (X.set gene_idx
            (noisyCol i noise_level noise
              (scaledCol (1 + fold_change) original_counts))) diags
      else .error .invalidParameter

/-- `perturb_genes_counts`.  Returns the perturbed AnnData object
together with the list of printed not-found diagnostics, or the raised
error.  The working copy `perturbed_adata = adata.copy()` is implicit in
the value semantics here; `perturbHeapCall` below models it explicitly. -/
def perturb_genes_counts (adata : AData) (target_genes : List String)
    (knock_type : String) (fold_change noise_level : ℚ)
    (noise : ℕ → ℕ → ℚ → ℕ) :
    Except PerturbError (AData × List String) :=
  if adata.intDtype = true then
    match perturbLoop adata.geneNames knock_type fold_change noise_level
        noise 0 target_genes adata.X [] with
    | .ok (X, diags) => .ok ({ adata with X := X }, diags)
    | .error e => .error e
  else .error .invalidInput

/-- Placeholder object used as `List.getD` default for the store model. -/
def emptyAData : AData :=
  { X := [], geneNames := [], intDtype := true }

/-- Store-passing model of a call to `perturb_genes_counts`, making the
object identities explicit: AnnData objects live in a store (a list of
objects, positions are references), the caller's object is at reference
`r`, and `perturbed_adata = adata.copy()` allocates an independent copy
at a fresh reference (AnnData `.copy()` copies `X`), which is the only
object the loop writes to.  Returns the final store and either the
reference of the returned object or the raised error. -/
def perturbHeapCall (store : List AData) (r : ℕ)
    (target_genes : List String) (knock_type : String)
    (fold_change noise_level : ℚ) (noise : ℕ → ℕ → ℚ → ℕ) :
    List AData × Except PerturbError ℕ :=
  let adata := store.getD r emptyAData
  let out := store.length
  let store1 := store ++ [adata]
  if adata.intDtype = true then
    match perturbLoop adata.geneNames knock_type fold_change noise_level
        noise 0 target_genes adata.X [] with
    | .ok (X, _) => (store1.set out { adata with X := X }, .ok out)
    | .error e => (store1, .error e)
  else (store1, .error .invalidInput)

/-- `simulate_count_data`.  The notebook builds
`AnnData(X = np.random.randint(0, 512, size=(n_gene, n_samples)))`, so
AnnData rows (`obs`, named `CELL<i>`) count `n_gene` and columns
(`var`, named `GENE<i>`) count `n_samples`; the gene-name column
therefore has `n_samples` entries.  `draw i j` is the oracle for the
`np.random.randint(0, 512, ...)` sample at row `i`, column `j`; the
`max_count` parameter is accepted but, as in the source, never used. -/
def simulate_count_data (n_gene n_samples : ℕ) (max_count : ℕ)
    (draw : ℕ → ℕ → ℕ) : AData :=
  { X := (List.range n_samples).map fun j =>
      (List.range n_gene).map fun i => ((draw i j : ℕ) : ℤ)
    geneNames := (List.range n_samples).map fun j => "GENE" ++ toString j
    intDtype := true }

/-- A concrete `AData` value used by counterexamples and witnesses:
two genes, one sample, integer dtype. -/
def testAData : AData :=
  { X := [[3], [4]], geneNames := ["GENE0", "GENE1"], intDtype := true }

/-- A concrete noise oracle that always draws `0`. -/
def zeroNoise : ℕ → ℕ → ℚ → ℕ := fun _ _ _ => 0

/-- A concrete noise oracle that always draws `3`. -/
def threeNoise : ℕ → ℕ → ℚ → ℕ := fun _ _ _ => 3

/-- A concrete `AData` value whose matrix dtype is not integral. -/
def floatAData : AData :=
  { X := [[1]], geneNames := ["GENE0"], intDtype := false }

/-- Integer cast of an integer-valued rational is the integer itself. -/
theorem truncToZero_intCast (n : ℤ) : truncToZero (n : ℚ) = n := by
  unfold truncToZero
  split <;> simp

/-- Scaling a count vector by factor `1` leaves it unchanged. -/
theorem scaledCol_one (col : List ℤ) : scaledCol 1 col = col := by
  simp [scaledCol, truncToZero_intCast]

/-- Every entry produced by the noise-and-clip step is clipped at zero. -/
theorem noisyColAux_nonneg (i : ℕ) (nl : ℚ) (noise : ℕ → ℕ → ℚ → ℕ) :
    ∀ (vs : List ℤ) (s : ℕ), ∀ y ∈ noisyColAux i nl noise s vs, 0 ≤ y := by
  intro vs
  induction vs with
  | nil => intro s y hy; simp [noisyColAux] at hy
  | cons v vs ih =>
      intro s y hy
      simp only [noisyColAux, List.mem_cons] at hy
      rcases hy with h | h
      · rw [h]; exact le_max_left 0 _
      · exact ih (s + 1) y h

/-- With noise level `0` every intensity is `0`, so with a noise oracle
that draws `0` at intensity `0` the noise-and-clip step is the identity
on non-negative vectors. -/
theorem noisyColAux_zero_level (i : ℕ) (noise : ℕ → ℕ → ℚ → ℕ)
    (hz : ∀ j s, noise j s 0 = 0) :
    ∀ (vs : List ℤ) (s : ℕ), (∀ v ∈ vs, 0 ≤ v) →
      noisyColAux i 0 noise s vs = vs := by
  intro vs
  induction vs with
  | nil => intro s _; rfl
  | cons v vs ih =>
      intro s hpos
      have hv : (0 : ℤ) ≤ v := hpos v (List.mem_cons_self v vs)
      simp only [noisyColAux, zero_mul, hz i s, Nat.cast_zero, add_zero,
        max_eq_right hv, List.cons.injEq, true_and]
      exact ih (s + 1) fun w hw => hpos w (List.mem_cons_of_mem v hw)

/-- Entrywise description of the noise-and-clip step. -/
theorem noisyColAux_getElem? (i : ℕ) (nl : ℚ) (noise : ℕ → ℕ → ℚ → ℕ) :
    ∀ (vs : List ℤ) (s0 s : ℕ),
      (noisyColAux i nl noise s0 vs)[s]? =
        (vs[s]?).map fun v =>
          max 0 (v + (noise i (s0 + s) (nl * ((max v 1 : ℤ) : ℚ)) : ℤ)) := by
  intro vs
  induction vs with
  | nil => intro s0 s; simp [noisyColAux]
  | cons v vs ih =>
      intro s0 s
      cases s with
      | zero => simp [noisyColAux]
      | succ t =>
          simp only [noisyColAux, List.getElem?_cons_succ, ih (s0 + 1) t]
          have : s0 + 1 + t = s0 + (t + 1) := by omega
          rw [this]

/-- Writing back at a position the vector stored there is a no-op. -/
theorem set_getD_self : ∀ (X : List (List ℤ)) (q : ℕ),
    X.set q (X.getD q []) = X := by
  intro X
  induction X with
  | nil => intro q; rfl
  | cons c cs ih =>
      intro q
      cases q with
      | zero => rfl
      | succ p => simpa [List.set, List.getD] using ih p

/-- Unfolding of the perturbation loop at an empty target list. -/
theorem perturbLoop_nil (gn : List String) (kt : String) (fc nl : ℚ)
    (noise : ℕ → ℕ → ℚ → ℕ) (i : ℕ) (X : List (List ℤ)) (diags : List String) :
    perturbLoop gn kt fc nl noise i [] X diags = .ok (X, diags) := rfl

/-- Unfolding of the perturbation loop at a target gene that is not in
the gene index: the gene is skipped with a diagnostic. -/
theorem perturbLoop_cons_missing (gn : List String) (kt : String) (fc nl : ℚ)
    (noise : ℕ → ℕ → ℚ → ℕ) (i : ℕ) (gene : String) (rest : List String)
    (X : List (List ℤ)) (diags : List String) (hmem : gene ∉ gn) :
    perturbLoop gn kt fc nl noise i (gene :: rest) X diags =
      perturbLoop gn kt fc nl noise (i + 1) rest X
        (diags ++ [notFoundMsg gene]) := by
  simp [perturbLoop, hmem]

/-- Unfolding of the perturbation loop at a resolved target gene with a
recognized kind: the gene's vector is scaled, noised, clipped and
written back. -/
theorem perturbLoop_cons_found (gn : List String) (kt : String) (fc nl : ℚ)
    (noise : ℕ → ℕ → ℚ → ℕ) (i : ℕ) (gene : String) (rest : List String)
    (X : List (List ℤ)) (diags : List String) (hmem : gene ∈ gn)
    (hkt : kt = "knock-down" ∨ kt = "knock-up") :
    perturbLoop gn kt fc nl noise i (gene :: rest) X diags =
      perturbLoop gn kt fc nl noise (i + 1) rest
        (X.set (gn.indexOf gene)
          (noisyCol i nl noise
            (scaledCol (if kt = "knock-down" then 1 - fc else 1 + fc)
              (X.getD (gn.indexOf gene) [])))) diags := by
  rcases hkt with h | h <;> subst h <;> simp [perturbLoop, hmem]

/-- Unfolding of the perturbation loop at a resolved target gene with an
unrecognized kind: the loop raises. -/
theorem perturbLoop_cons_found_bad (gn : List String) (kt : String) (fc nl : ℚ)
    (noise : ℕ → ℕ → ℚ → ℕ) (i : ℕ) (gene : String) (rest : List String)
    (X : List (List ℤ)) (diags : List String) (hmem : gene ∈ gn)
    (hkd : kt ≠ "knock-down") (hku : kt ≠ "knock-up") :
    perturbLoop gn kt fc nl noise i (gene :: rest) X diags =
      .error .invalidParameter := by
  simp [perturbLoop, hmem, hkd, hku]

/-- Frame property of the loop: the vector at a gene position whose name
is not among the targets is never written. -/
theorem perturbLoop_frame (gn : List String) (kt : String) (fc nl : ℚ)
    (noise : ℕ → ℕ → ℚ → ℕ) (p : ℕ) (n : String) (hp : gn[p]? = some n) :
    ∀ (targets : List String) (i : ℕ) (X : List (List ℤ))
      (diags : List String) (X2 : List (List ℤ)) (d2 : List String),
      n ∉ targets →
      perturbLoop gn kt fc nl noise i targets X diags = .ok (X2, d2) →
      X2[p]? = X[p]? := by
  intro targets
  induction targets with
  | nil =>
      intro i X diags X2 d2 _ hok
      rw [perturbLoop_nil] at hok
      cases hok
      rfl
  | cons gene rest ih =>
      intro i X diags X2 d2 hn hok
      have hne : n ≠ gene := fun h => hn (h ▸ List.mem_cons_self gene rest)
      have hnr : n ∉ rest := fun h => hn (List.mem_cons_of_mem gene h)
      by_cases hmem : gene ∈ gn
      · by_cases hkd : kt = "knock-down"
        · rw [perturbLoop_cons_found gn kt fc nl noise i gene rest X diags hmem
            (Or.inl hkd)] at hok
          have hq : gn[gn.indexOf gene]? = some gene := List.getElem?_indexOf hmem
          have hpq : gn.indexOf gene ≠ p := by
            intro h
            rw [h, hp] at hq
            exact hne (Option.some.inj hq)
          rw [ih (i + 1) _ diags X2 d2 hnr hok]
          exact List.getElem?_set_ne hpq
        · by_cases hku : kt = "knock-up"
          · rw [perturbLoop_cons_found gn kt fc nl noise i gene rest X diags hmem
              (Or.inr hku)] at hok
            have hq : gn[gn.indexOf gene]? = some gene := List.getElem?_indexOf hmem
            have hpq : gn.indexOf gene ≠ p := by
              intro h
              rw [h, hp] at hq
              exact hne (Option.some.inj hq)
            rw [ih (i + 1) _ diags X2 d2 hnr hok]
            exact List.getElem?_set_ne hpq
          · rw [perturbLoop_cons_found_bad gn kt fc nl noise i gene rest X diags
              hmem hkd hku] at hok
            cases hok
      · rw [perturbLoop_cons_missing gn kt fc nl noise i gene rest X diags hmem] at hok
        exact ih (i + 1) X _ X2 d2 hnr hok

/-- When no target name resolves, the loop returns the matrix unchanged
with one not-found diagnostic per target, and never checks the kind. -/
theorem perturbLoop_allMissing (gn : List String) (kt : String) (fc nl : ℚ)
    (noise : ℕ → ℕ → ℚ → ℕ) :
    ∀ (targets : List String) (i : ℕ) (X : List (List ℤ)) (diags : List String),
      (∀ g ∈ targets, g ∉ gn) →
      perturbLoop gn kt fc nl noise i targets X diags =
        .ok (X, diags ++ targets.map notFoundMsg) := by
  intro targets
  induction targets with
  | nil => intro i X diags _; simp [perturbLoop_nil]
  | cons gene rest ih =>
      intro i X diags hmiss
      have hg : gene ∉ gn := hmiss gene (List.mem_cons_self gene rest)
      rw [perturbLoop_cons_missing gn kt fc nl noise i gene rest X diags hg,
        ih (i + 1) X _ fun g hgr => hmiss g (List.mem_cons_of_mem gene hgr)]
      simp

/-- When some target name resolves and the kind is not recognized, the
loop raises the bad-kind error at the first resolved target. -/
theorem perturbLoop_badKind (gn : List String) (kt : String) (fc nl : ℚ)
    (noise : ℕ → ℕ → ℚ → ℕ) (hkd : kt ≠ "knock-down") (hku : kt ≠ "knock-up") :
    ∀ (targets : List String) (i : ℕ) (X : List (List ℤ)) (diags : List String),
      (∃ g ∈ targets, g ∈ gn) →
      perturbLoop gn kt fc nl noise i targets X diags =
        .error .invalidParameter := by
  intro targets
  induction targets with
  | nil => intro i X diags h; simp at h
  | cons gene rest ih =>
      intro i X diags h
      by_cases hmem : gene ∈ gn
      · exact perturbLoop_cons_found_bad gn kt fc nl noise i gene rest X diags
          hmem hkd hku
      · rw [perturbLoop_cons_missing gn kt fc nl noise i gene rest X diags hmem]
        rcases h with ⟨g, hg, hggn⟩
        rcases List.mem_cons.mp hg with rfl | hgr
        · exact absurd hggn hmem
        · exact ih (i + 1) X _ ⟨g, hgr, hggn⟩

/-- The loop preserves non-negativity of all matrix entries. -/
theorem perturbLoop_nonneg (gn : List String) (kt : String) (fc nl : ℚ)
    (noise : ℕ → ℕ → ℚ → ℕ) :
    ∀ (targets : List String) (i : ℕ) (X : List (List ℤ))
      (diags : List String) (X2 : List (List ℤ)) (d2 : List String),
      (∀ col ∈ X, ∀ x ∈ col, 0 ≤ x) →
      perturbLoop gn kt fc nl noise i targets X diags = .ok (X2, d2) →
      ∀ col ∈ X2, ∀ x ∈ col, 0 ≤ x := by
  intro targets
  induction targets with
  | nil =>
      intro i X diags X2 d2 hpos hok
      rw [perturbLoop_nil] at hok
      cases hok
      exact hpos
  | cons gene rest ih =>
      intro i X diags X2 d2 hpos hok
      by_cases hmem : gene ∈ gn
      · have hstep : ∀ factor,
            ∀ col ∈ X.set (gn.indexOf gene)
              (noisyCol i nl noise (scaledCol factor (X.getD (gn.indexOf gene) []))),
              ∀ x ∈ col, 0 ≤ x := by
          intro factor col hcol x hx
          rcases List.mem_or_eq_of_mem_set hcol with h | h
          · exact hpos col h x hx
          · exact noisyColAux_nonneg i nl noise _ 0 x (h ▸ hx)
        by_cases hkd : kt = "knock-down"
        · rw [perturbLoop_cons_found gn kt fc nl noise i gene rest X diags hmem
            (Or.inl hkd)] at hok
          exact ih (i + 1) _ diags X2 d2 (hstep _) hok
        · by_cases hku : kt = "knock-up"
          · rw [perturbLoop_cons_found gn kt fc nl noise i gene rest X diags hmem
              (Or.inr hku)] at hok
            exact ih (i + 1) _ diags X2 d2 (hstep _) hok
          · rw [perturbLoop_cons_found_bad gn kt fc nl noise i gene rest X diags
              hmem hkd hku] at hok
            cases hok
      · rw [perturbLoop_cons_missing gn kt fc nl noise i gene rest X diags hmem] at hok
        exact ih (i + 1) X _ X2 d2 hpos hok

/-- With `fold_change = 0`, `noise_level = 0`, kind knock-down, and a
noise oracle drawing `0` at intensity `0`, the loop never changes the
matrix (entries assumed non-negative, as for count data). -/
theorem perturbLoop_identity (gn : List String) (fc nl : ℚ)
    (noise : ℕ → ℕ → ℚ → ℕ) (hz : ∀ j s, noise j s 0 = 0)
    (hfc : fc = 0) (hnl : nl = 0) :
    ∀ (targets : List String) (i : ℕ) (X : List (List ℤ))
      (diags : List String) (X2 : List (List ℤ)) (d2 : List String),
      (∀ col ∈ X, ∀ x ∈ col, 0 ≤ x) →
      perturbLoop gn "knock-down" fc nl noise i targets X diags = .ok (X2, d2) →
      X2 = X := by
  subst hfc hnl
  intro targets
  induction targets with
  | nil =>
      intro i X diags X2 d2 _ hok
      rw [perturbLoop_nil] at hok
      cases hok
      rfl
  | cons gene rest ih =>
      intro i X diags X2 d2 hpos hok
      by_cases hmem : gene ∈ gn
      · rw [perturbLoop_cons_found gn "knock-down" 0 0 noise i gene rest X diags
          hmem (Or.inl rfl)] at hok
        have hcolpos : ∀ v ∈ X.getD (gn.indexOf gene) [], (0 : ℤ) ≤ v := by
          by_cases hlt : gn.indexOf gene < X.length
          · intro v hv
            rw [List.getD_eq_getElem X [] hlt] at hv
            exact hpos _ (List.getElem_mem hlt) v hv
          · intro v hv
            rw [List.getD_eq_default X [] (Nat.le_of_not_lt hlt)] at hv
            cases hv
        have hcol : noisyCol i 0 noise
            (scaledCol (if "knock-down" = "knock-down" then 1 - 0 else 1 + 0)
              (X.getD (gn.indexOf gene) [])) = X.getD (gn.indexOf gene) [] := by
          rw [if_pos rfl, sub_zero, scaledCol_one]
          exact noisyColAux_zero_level i noise hz _ 0 hcolpos
        rw [hcol, set_getD_self] at hok
        exact ih (i + 1) X diags X2 d2 hpos hok
      · rw [perturbLoop_cons_missing gn "knock-down" 0 0 noise i gene rest X diags
          hmem] at hok
        exact ih (i + 1) X _ X2 d2 hpos hok

/-- Description of the vector stored at a resolved target gene's
position after the loop: the original vector, scaled by the kind's
factor with integer cast, noised with the draws of that gene's loop
iteration, and clipped at zero.  The target gene is assumed to be
requested exactly once. -/
theorem perturbLoop_targetCol (gn : List String) (kt : String) (fc nl : ℚ)
    (noise : ℕ → ℕ → ℚ → ℕ) (g : String)
    (hkt : kt = "knock-down" ∨ kt = "knock-up") (hg : g ∈ gn) :
    ∀ (targets : List String) (i : ℕ) (X : List (List ℤ))
      (diags : List String) (X2 : List (List ℤ)) (d2 : List String),
      targets.count g = 1 → gn.length ≤ X.length →
      perturbLoop gn kt fc nl noise i targets X diags = .ok (X2, d2) →
      X2.getD (gn.indexOf g) [] =
        noisyCol (i + targets.indexOf g) nl noise
          (scaledCol (if kt = "knock-down" then 1 - fc else 1 + fc)
            (X.getD (gn.indexOf g) [])) := by
  have hq : gn[gn.indexOf g]? = some g := List.getElem?_indexOf hg
  have hqlt : gn.indexOf g < gn.length := List.indexOf_lt_length.mpr hg
  intro targets
  induction targets with
  | nil => intro i X diags X2 d2 hcount; simp at hcount
  | cons gene rest ih =>
      intro i X diags X2 d2 hcount hlen hok
      by_cases hge : gene = g
      · subst hge
        have hnr : gene ∉ rest := by
          rw [List.count_cons_self] at hcount
          exact List.count_eq_zero.mp (by omega)
        rw [perturbLoop_cons_found gn kt fc nl noise i gene rest X diags hg hkt]
          at hok
        have hframe := perturbLoop_frame gn kt fc nl noise (gn.indexOf gene) gene
          hq rest (i + 1) _ diags X2 d2 hnr hok
        have hset : (X.set (gn.indexOf gene)
            (noisyCol i nl noise
              (scaledCol (if kt = "knock-down" then 1 - fc else 1 + fc)
                (X.getD (gn.indexOf gene) []))))[gn.indexOf gene]? =
            some (noisyCol i nl noise
              (scaledCol (if kt = "knock-down" then 1 - fc else 1 + fc)
                (X.getD (gn.indexOf gene) []))) :=
          List.getElem?_set_eq_of_lt _ (Nat.lt_of_lt_of_le hqlt hlen)
        rw [List.getD_eq_getElem?_getD, hframe, hset, List.indexOf_cons_self]
        rfl
      · have hne : gene ≠ g := hge
        have hcount2 : rest.count g = 1 := by
          rwa [List.count_cons_of_ne (Ne.symm hne)] at hcount
        have hidx : (gene :: rest).indexOf g = rest.indexOf g + 1 :=
          List.indexOf_cons_ne rest hne
        by_cases hmem : gene ∈ gn
        · rw [perturbLoop_cons_found gn kt fc nl noise i gene rest X diags hmem
            hkt] at hok
          have hq1 : gn[gn.indexOf gene]? = some gene := List.getElem?_indexOf hmem
          have hne_idx : gn.indexOf gene ≠ gn.indexOf g := by
            intro h
            rw [h, hq] at hq1
            exact hne (Option.some.inj hq1).symm
          have hgd : (X.set (gn.indexOf gene)
              (noisyCol i nl noise
                (scaledCol (if kt = "knock-down" then 1 - fc else 1 + fc)
                  (X.getD (gn.indexOf gene) [])))).getD (gn.indexOf g) [] =
              X.getD (gn.indexOf g) [] := by
            rw [List.getD_eq_getElem?_getD, List.getElem?_set_ne hne_idx,
              ← List.getD_eq_getElem?_getD]
          have hlen2 : gn.length ≤ (X.set (gn.indexOf gene)
              (noisyCol i nl noise
                (scaledCol (if kt = "knock-down" then 1 - fc else 1 + fc)
                  (X.getD (gn.indexOf gene) [])))).length := by
            rwa [List.length_set]
          have := ih (i + 1) _ diags X2 d2 hcount2 hlen2 hok
          rw [hgd] at this
          rw [this, hidx]
          have harith : i + 1 + rest.indexOf g = i + (rest.indexOf g + 1) := by
            omega
          rw [harith]
        · rw [perturbLoop_cons_missing gn kt fc nl noise i gene rest X diags
            hmem] at hok
          have := ih (i + 1) X _ X2 d2 hcount2 hlen hok
          rw [this, hidx]
          have harith : i + 1 + rest.indexOf g = i + (rest.indexOf g + 1) := by
            omega
          rw [harith]

/-- Elimination form of a successful call: the dtype check passed, and
the returned object is the input with its matrix replaced by the loop's
result. -/
theorem perturb_genes_counts_ok (adata : AData) (targets : List String)
    (kt : String) (fc nl : ℚ) (noise : ℕ → ℕ → ℚ → ℕ) (a2 : AData)
    (d2 : List String)
    (hok : perturb_genes_counts adata targets kt fc nl noise = .ok (a2, d2)) :
    adata.intDtype = true ∧
    ∃ X2, a2 = { adata with X := X2 } ∧
      perturbLoop adata.geneNames kt fc nl noise 0 targets adata.X [] =
        .ok (X2, d2) := by
  unfold perturb_genes_counts at hok
  by_cases hdt : adata.intDtype = true
  · rw [if_pos hdt] at hok
    refine ⟨hdt, ?_⟩
    cases hloop : perturbLoop adata.geneNames kt fc nl noise 0 targets
        adata.X [] with
    | ok p =>
        obtain ⟨X2, dd⟩ := p
        rw [hloop] at hok
        injection hok with h
        obtain ⟨h1, h2⟩ := Prod.mk.injEq .. ▸ h
        exact ⟨X2, h1.symm, by rw [h2]⟩
    | error e =>
        rw [hloop] at hok
        exact Except.noConfusion hok
  · rw [if_neg hdt] at hok
    exact Except.noConfusion hok

/-- C2: for every successful call, the vector at the position of any
gene whose name is not among the targets is element-wise identical to
the input vector at that position. -/
theorem nonTarget_vector_unchanged (adata : AData) (targets : List String)
    (kt : String) (fc nl : ℚ) (noise : ℕ → ℕ → ℚ → ℕ) (a2 : AData)
    (d2 : List String) (p : ℕ) (n : String)
    (hok : perturb_genes_counts adata targets kt fc nl noise = .ok (a2, d2))
    (hname : adata.geneNames[p]? = some n) (hnt : n ∉ targets) :
    a2.X[p]? = adata.X[p]? := by
  obtain ⟨hdt, X2, ha2, hloop⟩ :=
    perturb_genes_counts_ok adata targets kt fc nl noise a2 d2 hok
  subst ha2
  exact perturbLoop_frame adata.geneNames kt fc nl noise p n hname targets 0
    adata.X [] X2 d2 hnt hloop

/-- C5: target names absent from the gene index are each skipped with
one diagnostic naming the missing gene; when no target resolves, the
call returns the input matrix unchanged without raising. -/
theorem missing_targets_skipped (adata : AData) (targets : List String)
    (kt : String) (fc nl : ℚ) (noise : ℕ → ℕ → ℚ → ℕ)
    (hdt : adata.intDtype = true)
    (hmiss : ∀ g ∈ targets, g ∉ adata.geneNames) :
    perturb_genes_counts adata targets kt fc nl noise =
      .ok (adata, targets.map notFoundMsg) := by
  unfold perturb_genes_counts
  rw [if_pos hdt, perturbLoop_allMissing adata.geneNames kt fc nl noise
    targets 0 adata.X [] hmiss]
  rfl

/-- C9: when the matrix has integer dtype and no target name resolves in
the gene index (in particular for an empty target list), the call
returns normally with the input matrix unchanged, for every value of
the kind — the kind check is only reached after a target resolves. -/
theorem kind_unchecked_without_resolved_target (adata : AData)
    (targets : List String) (kt : String) (fc nl : ℚ)
    (noise : ℕ → ℕ → ℚ → ℕ)
    (hdt : adata.intDtype = true)
    (hmiss : ∀ g ∈ targets, g ∉ adata.geneNames) :
    perturb_genes_counts adata targets kt fc nl noise =
      .ok (adata, targets.map notFoundMsg) := by
  unfold perturb_genes_counts
  rw [if_pos hdt, perturbLoop_allMissing adata.geneNames kt fc nl noise
    targets 0 adata.X [] hmiss]
  rfl

/-- C1 (counterexample): with an integer-dtype matrix and an unknown
kind, a call whose only target does not resolve in the gene index does
NOT fail with the bad-kind error — it returns normally. -/
theorem unknown_kind_not_always_rejected :
    perturb_genes_counts testAData ["GENE999"] "scramble" (1/2) (1/10)
      zeroNoise ≠ .error .invalidParameter := by
  have h : perturb_genes_counts testAData ["GENE999"] "scramble" (1/2) (1/10)
      zeroNoise = .ok (testAData, [notFoundMsg "GENE999"]) := rfl
  rw [h]
  intro hc
  exact Except.noConfusion hc

/-- C1 (amended): with an integer-dtype matrix, a kind outside
{knock-down, knock-up} fails with the bad-kind error as soon as at
least one target name resolves in the gene index. -/
theorem unknown_kind_rejected (adata : AData) (targets : List String)
    (kt : String) (fc nl : ℚ) (noise : ℕ → ℕ → ℚ → ℕ)
    (hdt : adata.intDtype = true)
    (hkd : kt ≠ "knock-down") (hku : kt ≠ "knock-up")
    (hres : ∃ g ∈ targets, g ∈ adata.geneNames) :
    perturb_genes_counts adata targets kt fc nl noise =
      .error .invalidParameter := by
  unfold perturb_genes_counts
  rw [if_pos hdt, perturbLoop_badKind adata.geneNames kt fc nl noise hkd hku
    targets 0 adata.X [] hres]

/-- C6: if every entry of the input matrix is non-negative, every entry
of a returned matrix is non-negative, for every kind, fold change and
noise level. -/
theorem output_entries_nonneg (adata : AData) (targets : List String)
    (kt : String) (fc nl : ℚ) (noise : ℕ → ℕ → ℚ → ℕ) (a2 : AData)
    (d2 : List String)
    (hpos : ∀ col ∈ adata.X, ∀ x ∈ col, 0 ≤ x)
    (hok : perturb_genes_counts adata targets kt fc nl noise = .ok (a2, d2)) :
    ∀ col ∈ a2.X, ∀ x ∈ col, 0 ≤ x := by
  obtain ⟨hdt, X2, ha2, hloop⟩ :=
    perturb_genes_counts_ok adata targets kt fc nl noise a2 d2 hok
  subst ha2
  exact perturbLoop_nonneg adata.geneNames kt fc nl noise targets 0 adata.X []
    X2 d2 hpos hloop

/-- C7: with fold change `0` and knock-down the scaled vector equals the
original vector, and with noise level `0` in addition (so that every
noise intensity is `0`, and a Poisson draw at intensity `0` is `0`) the
returned object equals the input exactly, target genes included. -/
theorem zero_fold_zero_noise_identity (adata : AData)
    (targets : List String) (noise : ℕ → ℕ → ℚ → ℕ) (a2 : AData)
    (d2 : List String)
    (hz : ∀ j s, noise j s 0 = 0)
    (hpos : ∀ col ∈ adata.X, ∀ x ∈ col, 0 ≤ x)
    (hok : perturb_genes_counts adata targets "knock-down" 0 0 noise =
      .ok (a2, d2)) :
    (∀ col : List ℤ, scaledCol (1 - 0) col = col) ∧ a2 = adata := by
  constructor
  · intro col
    rw [sub_zero]
    exact scaledCol_one col
  · obtain ⟨hdt, X2, ha2, hloop⟩ :=
      perturb_genes_counts_ok adata targets "knock-down" 0 0 noise a2 d2 hok
    have hXX : X2 = adata.X :=
      perturbLoop_identity adata.geneNames 0 0 noise hz rfl rfl targets 0
        adata.X [] X2 d2 hpos hloop
    rw [ha2, hXX]

/-- C3: the value stored for a resolved target gene (requested once) at
each sample is `max 0 (scaled + n)`, where `scaled` is the original
entry times `1 - fold_change` (knock-down) or `1 + fold_change`
(knock-up) truncated toward zero, and `n` is the Poisson draw of that
gene's loop iteration at intensity `noise_level * max(scaled, 1)`. -/
theorem target_gene_value_formula (adata : AData) (targets : List String)
    (kt : String) (fc nl : ℚ) (noise : ℕ → ℕ → ℚ → ℕ) (g : String)
    (a2 : AData) (d2 : List String) (s : ℕ) (v : ℤ)
    (hkt : kt = "knock-down" ∨ kt = "knock-up")
    (hg : g ∈ adata.geneNames)
    (hcount : targets.count g = 1)
    (hlen : adata.geneNames.length ≤ adata.X.length)
    (hok : perturb_genes_counts adata targets kt fc nl noise = .ok (a2, d2))
    (hv : (adata.X.getD (adata.geneNames.indexOf g) [])[s]? = some v) :
    (a2.X.getD (adata.geneNames.indexOf g) [])[s]? =
      some (max 0
        (truncToZero ((v : ℚ) * (if kt = "knock-down" then 1 - fc else 1 + fc))
          + (noise (targets.indexOf g) s
              (nl * ((max (truncToZero ((v : ℚ) *
                (if kt = "knock-down" then 1 - fc else 1 + fc))) 1 : ℤ) : ℚ))
              : ℤ))) := by
  obtain ⟨hdt, X2, ha2, hloop⟩ :=
    perturb_genes_counts_ok adata targets kt fc nl noise a2 d2 hok
  subst ha2
  have hcol := perturbLoop_targetCol adata.geneNames kt fc nl noise g hkt hg
    targets 0 adata.X [] X2 d2 hcount hlen hloop
  show (X2.getD (adata.geneNames.indexOf g) [])[s]? = _
  rw [hcol]
  unfold noisyCol
  rw [noisyColAux_getElem?]
  unfold scaledCol
  rw [List.getElem?_map, hv]
  simp only [Nat.zero_add]
  rfl

/-- C4: a non-integer matrix dtype makes the call fail with the
bad-dtype error, for every kind and target list; in the store model the
caller's object is untouched and no result reference is returned. -/
theorem nonint_dtype_rejected (store : List AData) (r : ℕ)
    (targets : List String) (kt : String) (fc nl : ℚ)
    (noise : ℕ → ℕ → ℚ → ℕ)
    (hdt : (store.getD r emptyAData).intDtype = false) :
    perturb_genes_counts (store.getD r emptyAData) targets kt fc nl noise =
      .error .invalidInput ∧
    (perturbHeapCall store r targets kt fc nl noise).2 =
      .error .invalidInput ∧
    (perturbHeapCall store r targets kt fc nl noise).1[r]? = store[r]? := by
  have hb : ¬ (store.getD r emptyAData).intDtype = true := by
    rw [hdt]
    exact Bool.false_ne_true
  have hr : r < store.length := by
    by_contra hge
    rw [List.getD_eq_default store emptyAData (Nat.le_of_not_lt hge)] at hdt
    simp [emptyAData] at hdt
  refine ⟨?_, ?_, ?_⟩
  · unfold perturb_genes_counts
    rw [if_neg hb]
  · unfold perturbHeapCall
    simp only [if_neg hb]
  · unfold perturbHeapCall
    simp only [if_neg hb]
    exact List.getElem?_append_left hr

/-- C8: in the store model, the call leaves the caller's object
unchanged (it only writes to the freshly allocated copy), and a
returned reference is distinct from the caller's reference, so mutating
either object afterwards cannot affect the other. -/
theorem returned_object_fresh (store : List AData) (r : ℕ)
    (targets : List String) (kt : String) (fc nl : ℚ)
    (noise : ℕ → ℕ → ℚ → ℕ) (hr : r < store.length) :
    (perturbHeapCall store r targets kt fc nl noise).1[r]? = store[r]? ∧
    ∀ o, (perturbHeapCall store r targets kt fc nl noise).2 = .ok o →
      o ≠ r := by
  have hfresh : store.length ≠ r := (Nat.ne_of_lt hr).symm
  unfold perturbHeapCall
  by_cases hdt : (store.getD r emptyAData).intDtype = true
  · simp only [if_pos hdt]
    cases hloop : perturbLoop (store.getD r emptyAData).geneNames kt fc nl
        noise 0 targets (store.getD r emptyAData).X [] with
    | ok p =>
        obtain ⟨X2, dd⟩ := p
        refine ⟨?_, ?_⟩
        · rw [List.getElem?_set_ne hfresh]
          exact List.getElem?_append_left hr
        · intro o h
          injection h with h
          rw [← h]
          exact hfresh
    | error e =>
        refine ⟨List.getElem?_append_left hr, ?_⟩
        intro o h
        exact Except.noConfusion h
  · simp only [if_neg hdt]
    refine ⟨List.getElem?_append_left hr, ?_⟩
    intro o h
    exact Except.noConfusion h

/-- C10 (bug evidence): `simulate_count_data` draws from
`np.random.randint(0, 512, ...)` regardless of `max_count`, so with
`max_count = 1` and the legal draw `7` (a possible value of
`np.random.randint(0, 512)`) the produced matrix has an entry outside
`[0, max_count)`, contradicting the documented `max_count` bound. -/
theorem simulate_ignores_max_count :
    ∃ col ∈ (simulate_count_data 1 1 1 fun _ _ => 7).X,
      ∃ x ∈ col, ¬ x < (1 : ℤ) := by
  decide

/-- Witness for the amended C1 theorem at a concrete input. -/
theorem unknown_kind_rejected_witness :
    testAData.intDtype = true ∧
    perturb_genes_counts testAData ["GENE999", "GENE1"] "scramble" (1/2)
      (1/10) zeroNoise = .error .invalidParameter :=
  ⟨rfl, unknown_kind_rejected testAData ["GENE999", "GENE1"] "scramble" (1/2)
    (1/10) zeroNoise rfl (by decide) (by decide) ⟨"GENE1", by decide, by decide⟩⟩

/-- Witness for the C2 theorem at a concrete input. -/
theorem nonTarget_vector_unchanged_witness :
    (AData.mk [[3], [5]] ["GENE0", "GENE1"] true).X[0]? = testAData.X[0]? :=
  nonTarget_vector_unchanged testAData ["GENE1"] "knock-down" (1/2) (1/10)
    threeNoise (AData.mk [[3], [5]] ["GENE0", "GENE1"] true) [] 0 "GENE0"
    (by with_unfolding_all rfl) (by decide) (by decide)

/-- Witness for the C3 theorem at a concrete input: original entry `4`,
knock-down with fold change `1/2`, so the scaled entry is `2`, plus the
iteration's draw `3`, clipped at zero: `5`. -/
theorem target_gene_value_formula_witness :
    ((AData.mk [[3], [5]] ["GENE0", "GENE1"] true).X.getD
        (testAData.geneNames.indexOf "GENE1") [])[0]? =
      some (max 0
        (truncToZero (((4 : ℤ) : ℚ) *
            (if "knock-down" = "knock-down" then 1 - 1/2 else 1 + 1/2))
          + (threeNoise (["GENE1"].indexOf "GENE1") 0
              ((1/10) * ((max (truncToZero (((4 : ℤ) : ℚ) *
                (if "knock-down" = "knock-down" then 1 - 1/2 else 1 + 1/2)))
                1 : ℤ) : ℚ)) : ℤ))) :=
  target_gene_value_formula testAData ["GENE1"] "knock-down" (1/2) (1/10)
    threeNoise "GENE1" (AData.mk [[3], [5]] ["GENE0", "GENE1"] true) [] 0 4
    (Or.inl rfl) (by decide) (by decide) (by decide)
    (by with_unfolding_all rfl) (by decide)

/-- Witness for the C4 theorem at a concrete input. -/
theorem nonint_dtype_rejected_witness :
    perturb_genes_counts ([floatAData].getD 0 emptyAData) ["GENE0"]
      "knock-down" (1/2) (1/10) zeroNoise = .error .invalidInput ∧
    (perturbHeapCall [floatAData] 0 ["GENE0"] "knock-down" (1/2) (1/10)
      zeroNoise).2 = .error .invalidInput ∧
    (perturbHeapCall [floatAData] 0 ["GENE0"] "knock-down" (1/2) (1/10)
      zeroNoise).1[0]? = [floatAData][0]? :=
  nonint_dtype_rejected [floatAData] 0 ["GENE0"] "knock-down" (1/2) (1/10)
    zeroNoise (by decide)

/-- Witness for the C5 theorem at a concrete input. -/
theorem missing_targets_skipped_witness :
    perturb_genes_counts testAData ["GENE999"] "knock-down" (1/2) (1/10)
      zeroNoise = .ok (testAData, ["GENE999"].map notFoundMsg) :=
  missing_targets_skipped testAData ["GENE999"] "knock-down" (1/2) (1/10)
    zeroNoise rfl (by decide)

/-- Witness for the C6 theorem at a concrete input: the output entry `5`
produced for the perturbed gene is non-negative. -/
theorem output_entries_nonneg_witness : (0 : ℤ) ≤ 5 :=
  output_entries_nonneg testAData ["GENE1"] "knock-down" (1/2) (1/10)
    threeNoise (AData.mk [[3], [5]] ["GENE0", "GENE1"] true) [] (by decide)
    (by with_unfolding_all rfl) [5] (by decide) 5 (by decide)

/-- Witness for the C7 theorem at a concrete input. -/
theorem zero_fold_zero_noise_identity_witness :
    scaledCol (1 - 0) [3, 4] = [3, 4] ∧ testAData = testAData :=
  ⟨(zero_fold_zero_noise_identity testAData ["GENE0", "GENE1"] zeroNoise
      testAData [] (fun _ _ => rfl) (by decide)
      (by with_unfolding_all rfl)).1 [3, 4],
   (zero_fold_zero_noise_identity testAData ["GENE0", "GENE1"] zeroNoise
      testAData [] (fun _ _ => rfl) (by decide)
      (by with_unfolding_all rfl)).2⟩

/-- Witness for the C8 theorem at a concrete input: the caller's cell is
unchanged and the returned reference `1` differs from the caller's `0`. -/
theorem returned_object_fresh_witness :
    (perturbHeapCall [testAData] 0 ["GENE1"] "knock-down" (1/2) (1/10)
      threeNoise).1[0]? = [testAData][0]? ∧ (1 : ℕ) ≠ 0 :=
  ⟨(returned_object_fresh [testAData] 0 ["GENE1"] "knock-down" (1/2) (1/10)
      threeNoise (by decide)).1,
   (returned_object_fresh [testAData] 0 ["GENE1"] "knock-down" (1/2) (1/10)
      threeNoise (by decide)).2 1 (by with_unfolding_all rfl)⟩

/-- Witness for the C9 theorem at a concrete input with an unknown kind. -/
theorem kind_unchecked_without_resolved_target_witness :
    perturb_genes_counts testAData ["GENE999"] "scramble" (1/2) (1/10)
      zeroNoise = .ok (testAData, ["GENE999"].map notFoundMsg) :=
  kind_unchecked_without_resolved_target testAData ["GENE999"] "scramble"
    (1/2) (1/10) zeroNoise rfl (by decide)
